import Mathlib

/-!
Verification development for the VWVCU view-count updater.

The JavaScript source is shallowly embedded: the rounding and comma-grouping
helpers from `include/util.js`, and the template-extraction / match-processing
pipeline of the `VWVCU` class in `main.js`, become Lean functions over explicit
data.  JavaScript numbers that can be an integer view count, `NaN`, or
`undefined` are modelled by the type `JVal`; JavaScript strings are modelled by
Lean strings, with the decimal rendering `String(num)` modelled by an explicit
digit-character list.
-/

namespace VWVCU

/-- A JavaScript value flowing through the view-count pipeline: a non-negative
integer, `NaN` (the result of a failed numeric conversion), or `undefined`
(the result of `Array.prototype.shift` on an empty array). -/
inductive JVal where
  | num (n : Nat)
  | nan
  | undef
deriving DecidableEq

/-- Fuel-driven rendering of the decimal digits of `n`, most significant digit
first.  Mirrors how `String(num)` renders a non-negative integer.  The fuel is
always at least `n + 1`, which is enough since `n / 10 < n` for `n ≥ 10`. -/
def digitsCharsAux : Nat → Nat → List Char → List Char
  | 0, _, acc => acc
  | fuel + 1, n, acc =>
    if n < 10 then Nat.digitChar n :: acc
    else digitsCharsAux fuel (n / 10) (Nat.digitChar (n % 10) :: acc)

/-- The decimal digit characters of `n`, most significant first. -/
def digitsChars (n : Nat) : List Char := digitsCharsAux (n + 1) n []

/-- Model of the JavaScript `String(n)` rendering of a non-negative integer. -/
def jsStr (n : Nat) : String := String.mk (digitsChars n)

/-- Model of `String(v)` for a pipeline value, as a character list:
numbers render in decimal, `NaN` renders as the three characters of the
string `NaN`, and `undefined` as the nine characters of `undefined`. -/
def jsValChars : JVal → List Char
  | JVal.num n => digitsChars n
  | JVal.nan => ['N', 'a', 'N']
  | JVal.undef => ['u', 'n', 'd', 'e', 'f', 'i', 'n', 'e', 'd']

/-- Numeric value of a decimal digit character. -/
def digitVal (c : Char) : Nat := c.toNat - 48

/-- Model of `parseInt` restricted to the all-digit strings produced by the
rounding policy: fold the digits left to right. -/
def jsParseInt (s : String) : Nat :=
  s.data.foldl (fun acc c => acc * 10 + digitVal c) 0

/-- The comma-insertion loop of `commafy` in `util.js`: walk the rendered
characters from the last to the first, prepending each to the result and
inserting a comma before every completed group of three. -/
def commafyCore : List Char → Nat → List Char → List Char
  | [], _, ret => ret
  | c :: rest, i, ret =>
    commafyCore rest (i + 1) (c :: (if i ≠ 0 ∧ i % 3 = 0 then ',' :: ret else ret))

/-- Model of `commafy` from `util.js`: `isNaN(num)` holds for both `NaN` and
`undefined`, in which case the function returns the literal placeholder
string; otherwise the digits of the number are grouped in threes. -/
def commafy : JVal → String
  | JVal.num n => String.mk (commafyCore (digitsChars n).reverse 0 [])
  | JVal.nan => "und,efi,ned"
  | JVal.undef => "und,efi,ned"

/-- Model of `roundV` from `util.js`: switch on the length of `String(num)`.
Lengths 1 and 2 return the exact and the ten-rounded value; length 3 replaces
the final character of the rendered string with a zero; lengths 4 to 6 replace
the final two characters with zeros; lengths 7 and 8 the final three; any
other length yields the sentinel.  `Math.round(num / 10) * 10` on a two-digit
non-negative integer equals `((num + 5) / 10) * 10` in integer arithmetic. -/
def roundV (v : JVal) : String :=
  let s := jsValChars v
  match s.length with
  | 1 => String.mk s
  | 2 =>
    match v with
    | JVal.num n => String.mk (digitsChars (((n + 5) / 10) * 10))
    | _ => "NaN"
  | 3 => String.mk (s.take (s.length - 1) ++ ['0'])
  | 4 | 5 | 6 => String.mk (s.take (s.length - 2) ++ ['0', '0'])
  | 7 | 8 => String.mk (s.take (s.length - 3) ++ ['0', '0', '0'])
  | _ => "unsupported"

/-- `roundV` applied to an actual non-negative integer. -/
def roundVN (n : Nat) : String := roundV (JVal.num n)

example : roundVN 7 = "7" := by decide
example : roundVN 45 = "50" := by decide
example : roundVN 999 = "990" := by decide
example : roundVN 1234 = "1200" := by decide
example : roundVN 1450 = "1400" := by decide
example : roundVN 9876543 = "9876000" := by decide
example : roundVN 123456789 = "unsupported" := by decide
example : roundV JVal.nan = "Na0" := by decide
example : roundV JVal.undef = "unsupported" := by decide
example : commafy (JVal.num 1450) = "1,450" := by decide
example : commafy (JVal.num 1234567) = "1,234,567" := by decide
example : commafy JVal.nan = "und,efi,ned" := by decide

/-! ## Digit-string lemmas -/

theorem digitsCharsAux_eq : ∀ n fuel : Nat, ∀ acc : List Char, n < fuel →
    digitsCharsAux fuel n acc = digitsChars n ++ acc := by
  intro n
  induction n using Nat.strong_induction_on with
  | _ n ih =>
    intro fuel acc h
    obtain ⟨f, rfl⟩ : ∃ f, fuel = f + 1 := ⟨fuel - 1, by omega⟩
    by_cases hlt : n < 10
    · simp [digitsCharsAux, digitsChars, hlt]
    · have hn : 10 ≤ n := Nat.not_lt.mp hlt
      have hdiv : n / 10 < n := Nat.div_lt_self (by omega) (by omega)
      have hrhs : digitsChars n = digitsChars (n / 10) ++ [Nat.digitChar (n % 10)] := by
        have h1 : digitsChars n = digitsCharsAux n (n / 10) [Nat.digitChar (n % 10)] := by
          simp [digitsChars, digitsCharsAux, hlt]
        rw [h1, ih (n / 10) hdiv n _ hdiv]
      calc digitsCharsAux (f + 1) n acc
          = digitsCharsAux f (n / 10) (Nat.digitChar (n % 10) :: acc) := by
            simp [digitsCharsAux, hlt]
        _ = digitsChars (n / 10) ++ (Nat.digitChar (n % 10) :: acc) :=
            ih (n / 10) hdiv f _ (by omega)
        _ = digitsChars n ++ acc := by rw [hrhs]; simp

theorem digitsChars_lt {n : Nat} (h : n < 10) :
    digitsChars n = [Nat.digitChar n] := by
  simp [digitsChars, digitsCharsAux, h]

theorem digitsChars_ge {n : Nat} (h : 10 ≤ n) :
    digitsChars n = digitsChars (n / 10) ++ [Nat.digitChar (n % 10)] := by
  have hdiv : n / 10 < n := Nat.div_lt_self (by omega) (by omega)
  have h1 : digitsChars n = digitsCharsAux n (n / 10) [Nat.digitChar (n % 10)] := by
    simp [digitsChars, digitsCharsAux, Nat.not_lt.mpr h]
  rw [h1, digitsCharsAux_eq _ _ _ hdiv]

theorem digitsChars_length_of (k : Nat) :
    ∀ n : Nat, 10 ^ k ≤ n → n < 10 ^ (k + 1) → (digitsChars n).length = k + 1 := by
  induction k with
  | zero =>
    intro n _ h2
    rw [digitsChars_lt (by simpa using h2)]
    rfl
  | succ k ih =>
    intro n h1 h2
    have hk : (10 : Nat) ^ (k + 1) = 10 ^ k * 10 := pow_succ 10 k
    have hk2 : (10 : Nat) ^ (k + 2) = 10 ^ (k + 1) * 10 := pow_succ 10 (k + 1)
    have h10 : 10 ≤ n := by
      have : (10 : Nat) ≤ 10 ^ (k + 1) := by
        calc (10 : Nat) = 10 ^ 1 := (pow_one 10).symm
          _ ≤ 10 ^ (k + 1) := Nat.pow_le_pow_right (by omega) (by omega)
      omega
    rw [digitsChars_ge h10, List.length_append, List.length_singleton]
    have hlow : 10 ^ k ≤ n / 10 := by
      rw [Nat.le_div_iff_mul_le (by omega)]
      omega
    have hhigh : n / 10 < 10 ^ (k + 1) := by
      rw [Nat.div_lt_iff_lt_mul (by omega)]
      omega
    rw [ih (n / 10) hlow hhigh]

theorem digitsChars_length_le (k : Nat) :
    ∀ n : Nat, 10 ^ k ≤ n → k + 1 ≤ (digitsChars n).length := by
  induction k with
  | zero =>
    intro n _
    by_cases h : n < 10
    · rw [digitsChars_lt h]; simp
    · rw [digitsChars_ge (Nat.not_lt.mp h)]; simp
  | succ k ih =>
    intro n h1
    have h10 : 10 ≤ n := by
      have : (10 : Nat) ≤ 10 ^ (k + 1) := by
        calc (10 : Nat) = 10 ^ 1 := (pow_one 10).symm
          _ ≤ 10 ^ (k + 1) := Nat.pow_le_pow_right (by omega) (by omega)
      omega
    have hlow : 10 ^ k ≤ n / 10 := by
      rw [Nat.le_div_iff_mul_le (by omega)]
      have := pow_succ 10 k
      omega
    rw [digitsChars_ge h10, List.length_append, List.length_singleton]
    have := ih (n / 10) hlow
    omega

theorem digitsChars_take (k : Nat) :
    ∀ n : Nat, 10 ^ k ≤ n →
      (digitsChars n).take ((digitsChars n).length - k) = digitsChars (n / 10 ^ k) := by
  induction k with
  | zero => intro n _; simp
  | succ k ih =>
    intro n h1
    have h10 : 10 ≤ n := by
      have : (10 : Nat) ≤ 10 ^ (k + 1) := by
        calc (10 : Nat) = 10 ^ 1 := (pow_one 10).symm
          _ ≤ 10 ^ (k + 1) := Nat.pow_le_pow_right (by omega) (by omega)
      omega
    have hlow : 10 ^ k ≤ n / 10 := by
      rw [Nat.le_div_iff_mul_le (by omega)]
      have := pow_succ 10 k
      omega
    rw [digitsChars_ge h10]
    have hlen : (digitsChars (n / 10) ++ [Nat.digitChar (n % 10)]).length
        = (digitsChars (n / 10)).length + 1 := by simp
    rw [hlen]
    have hsub : (digitsChars (n / 10)).length + 1 - (k + 1)
        = (digitsChars (n / 10)).length - k := by omega
    rw [hsub, List.take_append_of_le_length (by omega), ih (n / 10) hlow]
    congr 1
    rw [Nat.div_div_eq_div_mul]
    congr 1
    rw [pow_succ]
    ring

theorem digitsChars_mul_pow (k : Nat) (m : Nat) (h : 1 ≤ m) :
    digitsChars (m * 10 ^ k) = digitsChars m ++ List.replicate k '0' := by
  induction k with
  | zero => simp
  | succ k ih =>
    have hsucc : m * 10 ^ (k + 1) = m * 10 ^ k * 10 := by rw [pow_succ]; ring
    have hge : 10 ≤ m * 10 ^ (k + 1) := by
      have h1 : 1 ≤ 10 ^ k := Nat.one_le_pow _ _ (by omega)
      calc (10 : Nat) = 1 * 1 * 10 := by ring
        _ ≤ m * 10 ^ k * 10 := by
          apply Nat.mul_le_mul_right
          exact Nat.mul_le_mul h h1
        _ = m * 10 ^ (k + 1) := hsucc.symm
    rw [digitsChars_ge hge, hsucc]
    rw [Nat.mul_div_cancel _ (by omega), Nat.mul_mod_left]
    rw [ih, List.replicate_succ']
    have h0 : Nat.digitChar 0 = '0' := rfl
    simp [h0]

theorem digitsChars_isDigit : ∀ n : Nat, ∀ c ∈ digitsChars n, c.isDigit = true := by
  intro n
  induction n using Nat.strong_induction_on with
  | _ n ih =>
    intro c hc
    by_cases h : n < 10
    · rw [digitsChars_lt h] at hc
      have hd : ∀ m : Nat, m < 10 → (Nat.digitChar m).isDigit = true := by decide
      simp at hc
      subst hc
      exact hd n h
    · have h10 : 10 ≤ n := Nat.not_lt.mp h
      rw [digitsChars_ge h10] at hc
      rcases List.mem_append.mp hc with h1 | h2
      · exact ih (n / 10) (Nat.div_lt_self (by omega) (by omega)) c h1
      · have hd : ∀ m : Nat, m < 10 → (Nat.digitChar m).isDigit = true := by decide
        simp at h2
        subst h2
        exact hd _ (Nat.mod_lt _ (by omega))

theorem foldl_digitsChars : ∀ n a : Nat,
    List.foldl (fun acc c => acc * 10 + digitVal c) a (digitsChars n)
      = a * 10 ^ (digitsChars n).length + n := by
  intro n
  induction n using Nat.strong_induction_on with
  | _ n ih =>
    intro a
    by_cases h : n < 10
    · rw [digitsChars_lt h]
      have hd : ∀ m : Nat, m < 10 → digitVal (Nat.digitChar m) = m := by decide
      simp [List.foldl, hd n h, pow_one]
    · have h10 : 10 ≤ n := Nat.not_lt.mp h
      have hd : ∀ m : Nat, m < 10 → digitVal (Nat.digitChar m) = m := by decide
      rw [digitsChars_ge h10, List.foldl_append, List.length_append]
      simp only [List.foldl_cons, List.foldl_nil, List.length_singleton]
      rw [ih (n / 10) (Nat.div_lt_self (by omega) (by omega)) a]
      rw [hd _ (Nat.mod_lt _ (by omega))]
      rw [pow_succ]
      have := Nat.div_add_mod n 10
      ring_nf
      omega

theorem jsParseInt_jsStr (n : Nat) : jsParseInt (jsStr n) = n := by
  show List.foldl _ 0 (digitsChars n) = n
  rw [foldl_digitsChars n 0]
  simp

/-! ## The digit-count characterisation of the rounding policy -/

theorem digitsChars_len1 {n : Nat} (h : n < 10) : (digitsChars n).length = 1 := by
  rw [digitsChars_lt h]; rfl

theorem digitsChars_len_of {n k : Nat} (h1 : 10 ^ k ≤ n) (h2 : n < 10 ^ (k + 1)) :
    (digitsChars n).length = k + 1 :=
  digitsChars_length_of k n h1 h2

theorem roundV_take_case (n k L : Nat) (hpow : 10 ^ k ≤ n)
    (harm : roundVN n = String.mk ((digitsChars n).take (L - k) ++ List.replicate k '0'))
    (hlen : (digitsChars n).length = L) :
    roundVN n = jsStr ((n / 10 ^ k) * 10 ^ k) := by
  rw [harm]
  have ht := digitsChars_take k n hpow
  rw [hlen] at ht
  rw [ht]
  have hq : 1 ≤ n / 10 ^ k :=
    (Nat.one_le_div_iff (pow_pos (by norm_num) k)).mpr hpow
  show String.mk (digitsChars (n / 10 ^ k) ++ List.replicate k '0')
      = String.mk (digitsChars (n / 10 ^ k * 10 ^ k))
  rw [digitsChars_mul_pow k _ hq]

theorem roundVN_eq (n : Nat) :
    roundVN n =
      if n < 10 then jsStr n
      else if n < 100 then jsStr (((n + 5) / 10) * 10)
      else if n < 1000 then jsStr ((n / 10) * 10)
      else if n < 1000000 then jsStr ((n / 100) * 100)
      else if n < 100000000 then jsStr ((n / 1000) * 1000)
      else "unsupported" := by
  by_cases h1 : n < 10
  · rw [if_pos h1]
    have hlen := digitsChars_len1 h1
    simp only [roundVN, roundV, jsValChars]
    rw [hlen]
    rfl
  · rw [if_neg h1]
    by_cases h2 : n < 100
    · rw [if_pos h2]
      have hlen : (digitsChars n).length = 2 :=
        digitsChars_len_of (k := 1) (by norm_num; omega) (by norm_num; omega)
      simp only [roundVN, roundV, jsValChars]
      rw [hlen]
      rfl
    · rw [if_neg h2]
      by_cases h3 : n < 1000
      · rw [if_pos h3]
        have hpow : (10 : Nat) ^ 1 ≤ n := by norm_num; omega
        have hlen : (digitsChars n).length = 3 :=
          digitsChars_len_of (k := 2) (by norm_num; omega) (by norm_num; omega)
        have harm : roundVN n
            = String.mk ((digitsChars n).take (3 - 1) ++ List.replicate 1 '0') := by
          simp only [roundVN, roundV, jsValChars]
          rw [hlen]
          rfl
        have := roundV_take_case n 1 3 hpow harm hlen
        rw [this]
        norm_num
      · rw [if_neg h3]
        by_cases h4 : n < 1000000
        · rw [if_pos h4]
          have hpow : (10 : Nat) ^ 2 ≤ n := by norm_num; omega
          by_cases h4a : n < 10000
          · have hlen : (digitsChars n).length = 4 :=
              digitsChars_len_of (k := 3) (by norm_num; omega) (by norm_num; omega)
            have harm : roundVN n
                = String.mk ((digitsChars n).take (4 - 2) ++ List.replicate 2 '0') := by
              simp only [roundVN, roundV, jsValChars]
              rw [hlen]
              rfl
            rw [roundV_take_case n 2 4 hpow harm hlen]
            norm_num
          · by_cases h4b : n < 100000
            · have hlen : (digitsChars n).length = 5 :=
                digitsChars_len_of (k := 4) (by norm_num; omega) (by norm_num; omega)
              have harm : roundVN n
                  = String.mk ((digitsChars n).take (5 - 2) ++ List.replicate 2 '0') := by
                simp only [roundVN, roundV, jsValChars]
                rw [hlen]
                rfl
              rw [roundV_take_case n 2 5 hpow harm hlen]
              norm_num
            · have hlen : (digitsChars n).length = 6 :=
                digitsChars_len_of (k := 5) (by norm_num; omega) (by norm_num; omega)
              have harm : roundVN n
                  = String.mk ((digitsChars n).take (6 - 2) ++ List.replicate 2 '0') := by
                simp only [roundVN, roundV, jsValChars]
                rw [hlen]
                rfl
              rw [roundV_take_case n 2 6 hpow harm hlen]
              norm_num
        · rw [if_neg h4]
          by_cases h5 : n < 100000000
          · rw [if_pos h5]
            have hpow : (10 : Nat) ^ 3 ≤ n := by norm_num; omega
            by_cases h5a : n < 10000000
            · have hlen : (digitsChars n).length = 7 :=
                digitsChars_len_of (k := 6) (by norm_num; omega) (by norm_num; omega)
              have harm : roundVN n
                  = String.mk ((digitsChars n).take (7 - 3) ++ List.replicate 3 '0') := by
                simp only [roundVN, roundV, jsValChars]
                rw [hlen]
                rfl
              rw [roundV_take_case n 3 7 hpow harm hlen]
              norm_num
            · have hlen : (digitsChars n).length = 8 :=
                digitsChars_len_of (k := 7) (by norm_num; omega) (by norm_num; omega)
              have harm : roundVN n
                  = String.mk ((digitsChars n).take (8 - 3) ++ List.replicate 3 '0') := by
                simp only [roundVN, roundV, jsValChars]
                rw [hlen]
                rfl
              rw [roundV_take_case n 3 8 hpow harm hlen]
              norm_num
          · rw [if_neg h5]
            have h9 : 9 ≤ (digitsChars n).length := by
              have := digitsChars_length_le 8 n (by norm_num; omega)
              omega
            obtain ⟨j, hj⟩ : ∃ j, (digitsChars n).length = j + 9 :=
              ⟨(digitsChars n).length - 9, by omega⟩
            simp only [roundVN, roundV, jsValChars]
            rw [hj]
            rfl

/-- The numeric value whose decimal rendering `roundV` returns for an input
below one hundred million: the display bucket of the raw count. -/
def bucketVal (n : Nat) : Nat :=
  if n < 10 then n
  else if n < 100 then ((n + 5) / 10) * 10
  else if n < 1000 then (n / 10) * 10
  else if n < 1000000 then (n / 100) * 100
  else (n / 1000) * 1000

theorem roundVN_eq_bucket {n : Nat} (h : n < 100000000) :
    roundVN n = jsStr (bucketVal n) := by
  rw [roundVN_eq, bucketVal]
  by_cases h1 : n < 10
  · simp [h1]
  · by_cases h2 : n < 100
    · simp [h1, h2]
    · by_cases h3 : n < 1000
      · simp [h1, h2, h3]
      · by_cases h4 : n < 1000000
        · simp [h1, h2, h3, h4]
        · simp [h1, h2, h3, h4, h]

theorem bucketVal_lt {n : Nat} (h : n < 100000000) : bucketVal n < 100000000 := by
  rw [bucketVal]
  split_ifs <;> omega

theorem bucketVal_idem {n : Nat} (h : n < 100000000) :
    bucketVal (bucketVal n) = bucketVal n := by
  rw [bucketVal, bucketVal]
  split_ifs <;> omega

theorem roundVN_ne_unsupported {n : Nat} (h : n < 100000000) :
    roundVN n ≠ "unsupported" := by
  rw [roundVN_eq_bucket h]
  intro hcon
  have hdig := digitsChars_isDigit (bucketVal n) 'u'
  have hmem : 'u' ∈ digitsChars (bucketVal n) := by
    have : digitsChars (bucketVal n) = "unsupported".data := congrArg String.data hcon
    rw [this]
    decide
  have := hdig hmem
  exact absurd this (by decide)

theorem roundVN_unsupported_of_ge {n : Nat} (h : 100000000 ≤ n) :
    roundVN n = "unsupported" := by
  rw [roundVN_eq]
  rw [if_neg (by omega), if_neg (by omega), if_neg (by omega), if_neg (by omega),
    if_neg (by omega)]

/-- No actual view count rounds to the string that `roundV` produces for a
`NaN` input: the rounded rendering of a number consists of decimal digits, or
is the sentinel, and neither starts with the letter of the `NaN` rendering. -/
theorem roundVN_ne_Na0 (n : Nat) : roundVN n ≠ "Na0" := by
  by_cases h : n < 100000000
  · rw [roundVN_eq_bucket h]
    intro hcon
    have hdig := digitsChars_isDigit (bucketVal n) 'N'
    have hmem : 'N' ∈ digitsChars (bucketVal n) := by
      have : digitsChars (bucketVal n) = "Na0".data := congrArg String.data hcon
      rw [this]
      decide
    have := hdig hmem
    exact absurd this (by decide)
  · rw [roundVN_unsupported_of_ge (by omega)]
    decide

/-- C3: roundDisplay is determined by the decimal digit count of the input.
One digit returns the exact value; two digits rounds to the nearest multiple
of ten, ties upward; three digits floors to a multiple of ten; four to six
digits floors to a multiple of one hundred; seven or eight digits floors to a
multiple of one thousand; nine or more digits yields the sentinel string. -/
theorem roundV_digit_count_policy (n : Nat) :
    roundVN n =
      if n < 10 then jsStr n
      else if n < 100 then jsStr (((n + 5) / 10) * 10)
      else if n < 1000 then jsStr ((n / 10) * 10)
      else if n < 1000000 then jsStr ((n / 100) * 100)
      else if n < 100000000 then jsStr ((n / 1000) * 1000)
      else "unsupported" :=
  roundVN_eq n

/-- C9: roundDisplay is idempotent on displayed buckets: when the output is
not the sentinel, reparsing it as an integer and rounding again reproduces
the same string. -/
theorem roundV_idempotent (n : Nat) (h : roundVN n ≠ "unsupported") :
    roundVN (jsParseInt (roundVN n)) = roundVN n := by
  have hn : n < 100000000 := by
    by_contra hge
    exact h (roundVN_unsupported_of_ge (by omega))
  rw [roundVN_eq_bucket hn, jsParseInt_jsStr,
    roundVN_eq_bucket (bucketVal_lt hn), bucketVal_idem hn]

/-- Witness for C9 at the concrete input of the spec example. -/
theorem roundV_idempotent_witness :
    roundVN 1234 ≠ "unsupported" ∧ roundVN (jsParseInt (roundVN 1234)) = roundVN 1234 :=
  ⟨by decide, roundV_idempotent 1234 (by decide)⟩

/-! ## The template-extraction engine of main.js -/

/-- The six provider codes for which the `VWVCU` class has an adapter method:
the dynamic lookup of a method named by an underscore and the two-letter code
succeeds exactly for these. -/
def supportedProviders : List String := ["bb", "nn", "pp", "sc", "vm", "yt"]

/-- Whether a two-letter provider code has a registered adapter. -/
def supported (p : String) : Bool := supportedProviders.contains p

/-- One template occurrence found by the global regex scans, in document
order: a view template carrying its raw value text, or a link template
carrying the video id and the optional label (the label is never used). -/
inductive Tmpl where
  | view (provider : String) (value : String)
  | link (provider : String) (id : String) (label : Option String)
deriving DecidableEq

/-- A page document as the extraction engine sees it: whether the views and
links anchor fields matched once each, and the template occurrences of the
two global scans in document order. -/
structure Doc where
  hasViews : Bool
  hasLinks : Bool
  tmpls : List Tmpl
deriving DecidableEq

/-- A resolved match, as pushed by the extraction loop. -/
structure Match where
  link : String
  provider : String
  views : JVal
deriving DecidableEq

/-- The value-text cleanup of the view scan: the regex removes commas,
periods and whitespace, and removes everything from a pipe onward.  The
model covers single-line values, which is what the view template holds. -/
def stripViewValue (l : List Char) : List Char :=
  (l.takeWhile (fun c => c ≠ '|')).filter
    (fun c => !(c == ',' || c == '.' || c.isWhitespace))

/-- Model of the JavaScript `Number` conversion on a cleaned view value.
An empty string converts to zero; a string of decimal digits converts to its
value; anything else fails, yielding `NaN`.  Signed, hexadecimal and
exponent forms do not occur in view values and are outside the model. -/
def jsNumber (l : List Char) : JVal :=
  if l = [] then JVal.num 0
  else if l.all (fun c => c.isDigit) then
    JVal.num (l.foldl (fun acc c => acc * 10 + digitVal c) 0)
  else JVal.nan

/-- Numeric conversion of a raw view value: clean up, then convert. -/
def parseViews (raw : String) : JVal := jsNumber (stripViewValue raw.data)

/-- The per-provider queue object of the first scan: a JavaScript object
keyed by provider code, each key holding an array of converted values.  An
association list keeps the distinction between an absent key, which is falsy,
and a present key holding an empty array, which is truthy. -/
def ViewsMap : Type := List (String × List JVal)

/-- Reading a key of the queue object: `none` models an absent key. -/
def lookupViews : ViewsMap → String → Option (List JVal)
  | [], _ => none
  | (q, vs) :: rest, p => if q = p then some vs else lookupViews rest p

/-- The push of the first scan: append the value to the provider's array,
creating the array if the key is absent. -/
def pushView : ViewsMap → String → JVal → ViewsMap
  | [], p, v => [(p, [v])]
  | (q, vs) :: rest, p, v =>
    if q = p then (q, vs ++ [v]) :: rest else (q, vs) :: pushView rest p v

/-- Overwrite the array stored under an existing key, modelling the in-place
mutation performed by `Array.prototype.shift`. -/
def setViews : ViewsMap → String → List JVal → ViewsMap
  | [], _, _ => []
  | (q, vs) :: rest, p, l =>
    if q = p then (q, l) :: rest else (q, vs) :: setViews rest p l

/-- The first scan of `extractContent`: walk every view template in document
order and, when the provider has an adapter, push the converted value onto
that provider's queue.  Unsupported providers are never pushed. -/
def buildViewsAux : ViewsMap → List Tmpl → ViewsMap
  | m, [] => m
  | m, Tmpl.view p raw :: rest =>
    buildViewsAux (if supported p then pushView m p (parseViews raw) else m) rest
  | m, Tmpl.link _ _ _ :: rest => buildViewsAux m rest

/-- The queue object produced by the first scan. -/
def buildViews (ts : List Tmpl) : ViewsMap := buildViewsAux [] ts

/-- The second scan of `extractContent`: walk every link template in document
order.  An unsupported provider is skipped silently.  For a supported
provider, a present key takes the shift branch: a non-empty array yields its
head and the shortened array is written back, while an empty array yields
`undefined` and stays empty, because an empty array is still truthy.  Only an
absent key reaches the warning branch; the warning records the provider. -/
def extractLinks : List Tmpl → ViewsMap → List Match × List String
  | [], _ => ([], [])
  | Tmpl.view _ _ :: rest, m => extractLinks rest m
  | Tmpl.link p id _ :: rest, m =>
    if supported p then
      match lookupViews m p with
      | some (v :: vs) =>
        let r := extractLinks rest (setViews m p vs)
        (⟨id, p, v⟩ :: r.1, r.2)
      | some [] =>
        let r := extractLinks rest m
        (⟨id, p, JVal.undef⟩ :: r.1, r.2)
      | none =>
        let r := extractLinks rest m
        (r.1, p :: r.2)
    else extractLinks rest m

/-- Model of `extractContent`: if either anchor field is missing, return no
matches at once; otherwise run the two scans.  The second component collects
the emitted pairing warnings. -/
def extractContent (d : Doc) : List Match × List String :=
  if d.hasViews && d.hasLinks then extractLinks d.tmpls (buildViews d.tmpls)
  else ([], [])

example :
    extractContent ⟨true, true,
      [Tmpl.view "yt" "1,234", Tmpl.link "yt" "abc" none]⟩
      = ([⟨"abc", "yt", JVal.num 1234⟩], []) := by decide
example :
    extractContent ⟨false, true,
      [Tmpl.view "yt" "1,234", Tmpl.link "yt" "abc" none]⟩ = ([], []) := by decide
example : parseViews "12,345,678|as of 2020" = JVal.num 12345678 := by decide
example : parseViews "garbage" = JVal.nan := by decide

/-! ## Unsupported providers are invisible to extraction -/

theorem buildViewsAux_insert_link (p id : String) (lab : Option String) :
    ∀ (t1 : List Tmpl) (t2 : List Tmpl) (m : ViewsMap),
      buildViewsAux m (t1 ++ Tmpl.link p id lab :: t2) = buildViewsAux m (t1 ++ t2) := by
  intro t1
  induction t1 with
  | nil => intro t2 m; simp [buildViewsAux]
  | cons t t1 ih =>
    intro t2 m
    cases t with
    | view q raw => simp only [List.cons_append, buildViewsAux]; exact ih t2 _
    | link q id2 lab2 => simp only [List.cons_append, buildViewsAux]; exact ih t2 m

theorem buildViewsAux_insert_view {p : String} (h : supported p = false) (raw : String) :
    ∀ (t1 : List Tmpl) (t2 : List Tmpl) (m : ViewsMap),
      buildViewsAux m (t1 ++ Tmpl.view p raw :: t2) = buildViewsAux m (t1 ++ t2) := by
  intro t1
  induction t1 with
  | nil => intro t2 m; simp [buildViewsAux, h]
  | cons t t1 ih =>
    intro t2 m
    cases t with
    | view q raw2 => simp only [List.cons_append, buildViewsAux]; exact ih t2 _
    | link q id2 lab2 => simp only [List.cons_append, buildViewsAux]; exact ih t2 m

theorem extractLinks_insert_view (p raw : String) :
    ∀ (t1 : List Tmpl) (t2 : List Tmpl) (m : ViewsMap),
      extractLinks (t1 ++ Tmpl.view p raw :: t2) m = extractLinks (t1 ++ t2) m := by
  intro t1
  induction t1 with
  | nil => intro t2 m; simp [extractLinks]
  | cons t t1 ih =>
    intro t2 m
    cases t with
    | view q raw2 => simp only [List.cons_append, extractLinks]; exact ih t2 m
    | link q id2 lab2 =>
      simp only [List.cons_append, extractLinks]
      by_cases hq : supported q
      · cases hlk : lookupViews m q with
        | none => simp [hq, hlk, ih]
        | some vs => cases vs with
          | nil => simp [hq, hlk, ih]
          | cons v vs => simp [hq, hlk, ih]
      · simp [hq, ih]

theorem extractLinks_insert_link {p : String} (h : supported p = false)
    (id : String) (lab : Option String) :
    ∀ (t1 : List Tmpl) (t2 : List Tmpl) (m : ViewsMap),
      extractLinks (t1 ++ Tmpl.link p id lab :: t2) m = extractLinks (t1 ++ t2) m := by
  intro t1
  induction t1 with
  | nil => intro t2 m; simp [extractLinks, h]
  | cons t t1 ih =>
    intro t2 m
    cases t with
    | view q raw2 => simp only [List.cons_append, extractLinks]; exact ih t2 m
    | link q id2 lab2 =>
      simp only [List.cons_append, extractLinks]
      by_cases hq : supported q
      · cases hlk : lookupViews m q with
        | none => simp [hq, hlk, ih]
        | some vs => cases vs with
          | nil => simp [hq, hlk, ih]
          | cons v vs => simp [hq, hlk, ih]
      · simp [hq, ih]

/-- C7: a link template whose two-letter provider code has no adapter is
ignored entirely: extraction of a document with it inserted anywhere equals
extraction of the document without it (so it emits no warning, produces no
match, and consumes no queued view entry), and likewise a view template of an
unsupported provider is never pushed onto any queue. -/
theorem unsupported_provider_ignored (hv hl : Bool) (t1 t2 : List Tmpl)
    (p id raw : String) (lab : Option String) (h : supported p = false) :
    extractContent ⟨hv, hl, t1 ++ Tmpl.link p id lab :: t2⟩
        = extractContent ⟨hv, hl, t1 ++ t2⟩
    ∧ extractContent ⟨hv, hl, t1 ++ Tmpl.view p raw :: t2⟩
        = extractContent ⟨hv, hl, t1 ++ t2⟩ := by
  by_cases hb : (hv && hl) = true
  · constructor
    · simp only [extractContent, hb, if_true]
      rw [show buildViews (t1 ++ Tmpl.link p id lab :: t2) = buildViews (t1 ++ t2) from
        buildViewsAux_insert_link p id lab t1 t2 []]
      exact extractLinks_insert_link h id lab t1 t2 _
    · simp only [extractContent, hb, if_true]
      rw [show buildViews (t1 ++ Tmpl.view p raw :: t2) = buildViews (t1 ++ t2) from
        buildViewsAux_insert_view h raw t1 t2 []]
      exact extractLinks_insert_view p raw t1 t2 _
  · constructor <;> simp [extractContent, hb]

/-- Witness for C7: a document carrying a link and a view of the unregistered
provider code xx extracts exactly as the document without them. -/
theorem unsupported_provider_ignored_witness :
    extractContent ⟨true, true,
        [Tmpl.view "yt" "100", Tmpl.link "xx" "zzz" none, Tmpl.link "yt" "aaa" none]⟩
      = extractContent ⟨true, true, [Tmpl.view "yt" "100", Tmpl.link "yt" "aaa" none]⟩ :=
  (unsupported_provider_ignored true true [Tmpl.view "yt" "100"] [Tmpl.link "yt" "aaa" none]
    "xx" "zzz" "7" none (by decide)).1

/-- C1 counterexample: in a document with one yt view entry and two yt links,
the second link finds the queue present but exhausted; the code then emits no
warning at all and pushes a match whose recorded views is undefined,
against the claim of exactly one warning and exclusion. -/
theorem exhausted_queue_counterexample :
    ¬ ((extractContent ⟨true, true,
          [Tmpl.view "yt" "100", Tmpl.link "yt" "aaa" none, Tmpl.link "yt" "bbb" none]⟩).2.length = 1
        ∧ ∀ m ∈ (extractContent ⟨true, true,
          [Tmpl.view "yt" "100", Tmpl.link "yt" "aaa" none, Tmpl.link "yt" "bbb" none]⟩).1,
            m.views ≠ JVal.undef) := by decide

/-- C1 (amended): when the second scan reaches a link of a supported
provider, two cases arise.  If the provider's queue key is absent, because no
view entry of that provider was ever pushed, exactly one warning is emitted
and the link is excluded from the match list.  If the key is present but its
queue was exhausted by earlier links, the empty array is still truthy, so no
warning is emitted and a match with undefined recorded views is produced. -/
theorem exhausted_queue_amended (p id : String) (lab : Option String)
    (rest : List Tmpl) (m : ViewsMap) (hs : supported p = true) :
    (lookupViews m p = none →
      extractLinks (Tmpl.link p id lab :: rest) m
        = ((extractLinks rest m).1, p :: (extractLinks rest m).2))
    ∧ (lookupViews m p = some [] →
      extractLinks (Tmpl.link p id lab :: rest) m
        = (⟨id, p, JVal.undef⟩ :: (extractLinks rest m).1, (extractLinks rest m).2)) := by
  constructor
  · intro hl
    simp [extractLinks, hs, hl]
  · intro hl
    simp [extractLinks, hs, hl]

/-- Witness for the amended C1, exercising both branches concretely. -/
theorem exhausted_queue_amended_witness :
    extractLinks [Tmpl.link "yt" "aaa" none] ([] : ViewsMap) = ([], ["yt"])
    ∧ extractLinks [Tmpl.link "yt" "aaa" none] [("yt", ([] : List JVal))]
        = ([⟨"aaa", "yt", JVal.undef⟩], []) := by
  constructor
  · exact ((exhausted_queue_amended "yt" "aaa" none [] [] (by decide)).1 (by decide)).trans
      (by decide)
  · exact ((exhausted_queue_amended "yt" "aaa" none [] [("yt", [])] (by decide)).2
      (by decide)).trans (by decide)

/-! ## The FIFO pairing invariant (spec side) -/

/-- The view entries declared for a provider, in document order. -/
def viewsOfProvider (ts : List Tmpl) (p : String) : List JVal :=
  ts.filterMap fun t =>
    match t with
    | Tmpl.view q raw => if q = p then some (parseViews raw) else none
    | Tmpl.link _ _ _ => none

/-- Whether a template occurrence is a link template of the given provider. -/
def isLinkOf (p : String) : Tmpl → Bool
  | Tmpl.link q _ _ => q == p
  | Tmpl.view _ _ => false

/-- The number of link templates of a provider in a document. -/
def linkCount (ts : List Tmpl) (p : String) : Nat := ts.countP (isLinkOf p)

/-- The provider codes of the link templates of a document, in order. -/
def linkProviders (ts : List Tmpl) : List String :=
  ts.filterMap fun t =>
    match t with
    | Tmpl.link q _ _ => some q
    | Tmpl.view _ _ => none

/-- Increment a per-provider counter. -/
def bump (cnt : String → Nat) (p : String) : String → Nat :=
  fun q => if q = p then cnt q + 1 else cnt q

/-- The pairing as the spec words it: walk the link templates in document
order; an unsupported provider is skipped; a supported provider's Nth link
binds to that provider's Nth declared view entry, counting per provider.
This is the spec-side definition that claim C2 compares extraction to. -/
def specPairAux (allViews : String → List JVal) : List Tmpl → (String → Nat) → List Match
  | [], _ => []
  | Tmpl.view _ _ :: rest, cnt => specPairAux allViews rest cnt
  | Tmpl.link p id _ :: rest, cnt =>
    if supported p then
      match (allViews p)[cnt p]? with
      | some v => ⟨id, p, v⟩ :: specPairAux allViews rest (bump cnt p)
      | none => specPairAux allViews rest (bump cnt p)
    else specPairAux allViews rest cnt

/-- The strict per-provider FIFO pairing of a document. -/
def specPair (ts : List Tmpl) : List Match :=
  specPairAux (viewsOfProvider ts) ts (fun _ => 0)

theorem lookup_pushView_self : ∀ (m : ViewsMap) (p : String) (v : JVal),
    lookupViews (pushView m p v) p = some ((lookupViews m p).getD [] ++ [v]) := by
  intro m p v
  induction m with
  | nil => simp [pushView, lookupViews]
  | cons e rest ih =>
    obtain ⟨q, vs⟩ := e
    by_cases hq : q = p
    · simp [pushView, lookupViews, hq]
    · simp [pushView, lookupViews, hq, ih]

theorem lookup_pushView_ne : ∀ (m : ViewsMap) {q p : String} (v : JVal), q ≠ p →
    lookupViews (pushView m q v) p = lookupViews m p := by
  intro m q p v h
  induction m with
  | nil => simp [pushView, lookupViews, h]
  | cons e rest ih =>
    obtain ⟨r, vs⟩ := e
    by_cases hr : r = q
    · subst hr
      simp [pushView, lookupViews, h]
    · simp [pushView, lookupViews, hr, ih]

theorem lookup_setViews_self : ∀ (m : ViewsMap) (p : String) (l : List JVal),
    (lookupViews m p).isSome = true →
    lookupViews (setViews m p l) p = some l := by
  intro m p l h
  induction m with
  | nil => simp [lookupViews] at h
  | cons e rest ih =>
    obtain ⟨q, vs⟩ := e
    by_cases hq : q = p
    · simp [setViews, lookupViews, hq]
    · simp only [lookupViews, if_neg hq] at h
      simp [setViews, lookupViews, hq, ih h]

theorem lookup_setViews_ne : ∀ (m : ViewsMap) {q p : String} (l : List JVal), q ≠ p →
    lookupViews (setViews m q l) p = lookupViews m p := by
  intro m q p l h
  induction m with
  | nil => simp [setViews, lookupViews]
  | cons e rest ih =>
    obtain ⟨r, vs⟩ := e
    by_cases hr : r = q
    · subst hr
      simp [setViews, lookupViews, h]
    · simp [setViews, lookupViews, hr, ih]

theorem lookup_buildViewsAux : ∀ (ts : List Tmpl) (m : ViewsMap) (p : String),
    supported p = true →
    lookupViews (buildViewsAux m ts) p =
      match lookupViews m p with
      | some us => some (us ++ viewsOfProvider ts p)
      | none =>
        if viewsOfProvider ts p = [] then none else some (viewsOfProvider ts p) := by
  intro ts
  induction ts with
  | nil =>
    intro m p hp
    simp only [buildViewsAux, viewsOfProvider, List.filterMap_nil]
    cases h : lookupViews m p <;> simp
  | cons t rest ih =>
    intro m p hp
    cases t with
    | link q id lab =>
      simp only [buildViewsAux]
      rw [ih m p hp]
      simp [viewsOfProvider]
    | view q raw =>
      by_cases hq : supported q
      · by_cases hqp : q = p
        · subst hqp
          simp only [buildViewsAux, if_pos hq]
          rw [ih _ _ hp]
          rw [lookup_pushView_self]
          have hview : viewsOfProvider (Tmpl.view q raw :: rest) q
              = parseViews raw :: viewsOfProvider rest q := by
            simp [viewsOfProvider]
          rw [hview]
          cases h : lookupViews m q <;> simp
        · simp only [buildViewsAux, if_pos hq]
          rw [ih _ _ hp, lookup_pushView_ne _ _ hqp]
          have hview : viewsOfProvider (Tmpl.view q raw :: rest) p
              = viewsOfProvider rest p := by
            simp [viewsOfProvider, hqp]
          rw [hview]
      · have hqp : q ≠ p := fun hcon => by rw [hcon] at hq; exact hq hp
        simp only [buildViewsAux, if_neg hq]
        rw [ih m p hp]
        have hview : viewsOfProvider (Tmpl.view q raw :: rest) p
            = viewsOfProvider rest p := by
          simp [viewsOfProvider, hqp]
        rw [hview]

theorem lookup_buildViews (ts : List Tmpl) (p : String) (hp : supported p = true) :
    lookupViews (buildViews ts) p =
      if viewsOfProvider ts p = [] then none else some (viewsOfProvider ts p) := by
  have h := lookup_buildViewsAux ts [] p hp
  simpa [lookupViews, buildViews] using h

theorem mem_linkProviders_of_linkCount_pos :
    ∀ (ts : List Tmpl) (p : String), 0 < linkCount ts p → p ∈ linkProviders ts := by
  intro ts p
  induction ts with
  | nil => simp [linkCount, List.countP_nil]
  | cons t rest ih =>
    intro h
    cases t with
    | view q raw =>
      simp only [linkCount, List.countP_cons] at h
      simp only [isLinkOf, cond_false, Nat.add_zero] at h
      simp only [linkProviders, List.filterMap_cons]
      exact ih h
    | link q id lab =>
      by_cases hq : q = p
      · subst hq
        simp [linkProviders, List.filterMap_cons]
      · simp only [linkCount, List.countP_cons, isLinkOf] at h
        have hb : (q == p) = false := beq_false_of_ne hq
        simp only [hb] at h
        simp only [if_false, Bool.false_eq_true, Nat.add_zero] at h
        simp only [linkProviders, List.filterMap_cons]
        exact List.mem_cons_of_mem _ (ih h)

theorem extractLinks_spec (allViews : String → List JVal) :
    ∀ (ts : List Tmpl) (m : ViewsMap) (cnt : String → Nat),
      (∀ p, supported p = true →
        linkCount ts p + cnt p ≤ (allViews p).length ∧
        lookupViews m p =
          (if allViews p = [] then none else some ((allViews p).drop (cnt p)))) →
      extractLinks ts m = (specPairAux allViews ts cnt, []) := by
  intro ts
  induction ts with
  | nil => intro m cnt _; rfl
  | cons t rest ih =>
    intro m cnt h
    cases t with
    | view q raw =>
      simp only [extractLinks, specPairAux]
      apply ih
      intro p hp
      have hh := h p hp
      have hlc : linkCount (Tmpl.view q raw :: rest) p = linkCount rest p := by
        simp [linkCount, List.countP_cons, isLinkOf]
      rw [hlc] at hh
      exact hh
    | link q id lab =>
      by_cases hq : supported q = true
      · have hh := h q hq
        have hlc : linkCount (Tmpl.link q id lab :: rest) q = linkCount rest q + 1 := by
          simp [linkCount, List.countP_cons, isLinkOf]
        rw [hlc] at hh
        obtain ⟨hle, hlk⟩ := hh
        have hne : allViews q ≠ [] := by
          intro hcon
          rw [hcon] at hle
          simp at hle
        have hlt : cnt q < (allViews q).length := by
          have := List.length_pos.mpr hne
          omega
        rw [if_neg hne] at hlk
        have hdrop : (allViews q).drop (cnt q)
            = (allViews q)[cnt q] :: (allViews q).drop (cnt q + 1) :=
          List.drop_eq_getElem_cons hlt
        rw [hdrop] at hlk
        have hget : (allViews q)[cnt q]? = some (allViews q)[cnt q] :=
          List.getElem?_eq_getElem hlt
        have hinv : ∀ p, supported p = true →
            linkCount rest p + bump cnt q p ≤ (allViews p).length ∧
            lookupViews (setViews m q ((allViews q).drop (cnt q + 1))) p =
              (if allViews p = [] then none
               else some ((allViews p).drop (bump cnt q p))) := by
          intro p hp
          by_cases hpq : p = q
          · rw [hpq]
            have hb : bump cnt q q = cnt q + 1 := by simp [bump]
            constructor
            · rw [hb]
              omega
            · rw [lookup_setViews_self _ _ _ (by rw [hlk]; rfl), if_neg hne, hb]
          · have hqp : q ≠ p := fun hcon => hpq hcon.symm
            have hh2 := h p hp
            have hlc2 : linkCount (Tmpl.link q id lab :: rest) p = linkCount rest p := by
              simp [linkCount, List.countP_cons, isLinkOf, beq_false_of_ne hqp]
            rw [hlc2] at hh2
            constructor
            · simp only [bump, if_neg hpq]
              exact hh2.1
            · rw [lookup_setViews_ne _ _ hqp]
              simp only [bump, if_neg hpq]
              exact hh2.2
        simp only [extractLinks, specPairAux, if_pos hq, hlk, hget]
        rw [ih _ _ hinv]
      · have hqf : supported q = false := by
          revert hq
          cases supported q <;> simp
        simp only [extractLinks, specPairAux, hqf, Bool.false_eq_true, if_false]
        apply ih
        intro p hp
        have hqp : q ≠ p := by
          intro hcon
          subst hcon
          rw [hqf] at hp
          simp at hp
        have hh2 := h p hp
        have hlc2 : linkCount (Tmpl.link q id lab :: rest) p = linkCount rest p := by
          simp [linkCount, List.countP_cons, isLinkOf, beq_false_of_ne hqp]
        rw [hlc2] at hh2
        exact hh2

/-- C2: on a document with both anchor fields whose supported providers each
declare at least as many view entries as they have link templates, the match
list produced by extraction is exactly the strict per-provider FIFO pairing:
each supported link template, in document order, binds to its provider's next
declared view entry, and unsupported templates interleaved anywhere do not
perturb the pairing (they are absent from both sides). -/
theorem extract_fifo_pairing (d : Doc) (hv : d.hasViews = true) (hl : d.hasLinks = true)
    (hadeq : ∀ p ∈ linkProviders d.tmpls, supported p = true →
      linkCount d.tmpls p ≤ (viewsOfProvider d.tmpls p).length) :
    (extractContent d).1 = specPair d.tmpls := by
  have hinv : ∀ p, supported p = true →
      linkCount d.tmpls p + (fun _ : String => 0) p ≤ (viewsOfProvider d.tmpls p).length ∧
      lookupViews (buildViews d.tmpls) p =
        (if viewsOfProvider d.tmpls p = [] then none
         else some ((viewsOfProvider d.tmpls p).drop ((fun _ : String => 0) p))) := by
    intro p hp
    constructor
    · simp only [Nat.add_zero]
      by_cases hzero : linkCount d.tmpls p = 0
      · omega
      · exact hadeq p (mem_linkProviders_of_linkCount_pos d.tmpls p (by omega)) hp
    · rw [lookup_buildViews d.tmpls p hp]
      simp [List.drop_zero]
  have hmain := extractLinks_spec (viewsOfProvider d.tmpls) d.tmpls
    (buildViews d.tmpls) (fun _ => 0) hinv
  simp [extractContent, hv, hl, hmain, specPair]

/-- Witness for C2 on a concrete document interleaving two supported
providers with an unsupported one. -/
theorem extract_fifo_pairing_witness :
    (extractContent ⟨true, true,
        [Tmpl.view "yt" "1,000", Tmpl.view "xx" "5", Tmpl.view "yt" "2000",
         Tmpl.link "xx" "zzz" none, Tmpl.link "yt" "aaa" none, Tmpl.view "nn" "7",
         Tmpl.link "yt" "bbb" (some "label"), Tmpl.link "nn" "ccc" none]⟩).1
      = specPair
        [Tmpl.view "yt" "1,000", Tmpl.view "xx" "5", Tmpl.view "yt" "2000",
         Tmpl.link "xx" "zzz" none, Tmpl.link "yt" "aaa" none, Tmpl.view "nn" "7",
         Tmpl.link "yt" "bbb" (some "label"), Tmpl.link "nn" "ccc" none] :=
  extract_fifo_pairing _ rfl rfl (by decide)

/-! ## The reconciliation step and the page pipeline driver -/

/-- First-occurrence search: split the haystack around the leftmost
occurrence of the pattern, or return `none` when the pattern is absent. -/
def findSplit : List Char → List Char → Option (List Char × List Char)
  | [], pat => if pat = [] then some ([], []) else none
  | c :: rest, pat =>
    if pat.isPrefixOf (c :: rest) then some ([], (c :: rest).drop pat.length)
    else
      match findSplit rest pat with
      | some (pre, post) => some (c :: pre, post)
      | none => none

/-- Model of `String.prototype.replace` with a plain string pattern: replace
the first occurrence only, return the receiver unchanged when the pattern
does not occur.  The replacements built here never contain dollar escapes. -/
def jsReplace (s pat rep : String) : String :=
  match findSplit s.data pat.data with
  | some (pre, post) => String.mk (pre ++ rep.data ++ post)
  | none => s

/-- Model of `String.prototype.startsWith`. -/
def strStartsWith (s pre : String) : Bool := pre.data.isPrefixOf s.data

/-- Model of `String.prototype.includes`. -/
def strContains (s sub : String) : Bool := (findSplit s.data sub.data).isSome

example : jsReplace "a bc bc d" "bc" "XY" = "a XY bc d" := by decide
example : jsReplace "a bc bc d" "zz" "XY" = "a bc bc d" := by decide

/-- The error object thrown by an adapter, reduced to the fields the catch
block of `processMatch` inspects: the message and the code carried by the
attached transport response, when there is one. -/
structure JsError where
  message : Option String
  responseCode : Option Nat
deriving DecidableEq

/-- The quota test of the catch block: a truthy message that starts with the
daily-limit text or contains the quota word, or an attached response whose
code is 403. -/
def isQuotaError (e : JsError) : Bool :=
  (match e.message with
   | some msg =>
     (msg != "") && (strStartsWith msg "Daily Limit Exceeded" || strContains msg "quota")
   | none => false)
  || (match e.responseCode with
      | some c => c == 403
      | none => false)

/-- The view-template text built for the literal substitution. -/
def vTemplate (p v : String) : String :=
  "\x7b\x7bv|" ++ p ++ "|" ++ v ++ "\x7d\x7d"

/-- Result of one adapter call: a count, or a thrown error. -/
inductive FetchResult where
  | ok (count : JVal)
  | err (e : JsError)

/-- An adapter oracle: what the provider call for a match returns. -/
def Fetch : Type := Match → FetchResult

/-- Outcome of processing one match: continue with a (possibly rewritten)
working document, or the quota escape hatch, which records the persisted
page list and the process exit code. -/
inductive StepResult where
  | cont (content : String)
  | quota (persisted : List String) (code : Nat)
deriving DecidableEq

/-- Model of `processMatch`: call the adapter; on success compare the rounded
old and new counts and, when they differ, replace the first occurrence of the
old view template with the new one; on a thrown error, the quota test decides
between prepending the current page to the remaining queue, persisting it and
exiting with status zero, and logging plus returning the document unchanged. -/
def processMatch (fetch : Fetch) (page : String) (pages : List String)
    (content : String) (m : Match) : StepResult :=
  match fetch m with
  | FetchResult.ok count =>
    if roundV m.views = roundV count then StepResult.cont content
    else
      StepResult.cont (jsReplace content
        (vTemplate m.provider (commafy m.views))
        (vTemplate m.provider (commafy count)))
  | FetchResult.err e =>
    if isQuotaError e then StepResult.quota (page :: pages) 0
    else StepResult.cont content

/-- The fold of `processPage` over the extracted matches: each step feeds the
working document onward; the quota outcome stops the fold at once. -/
def processMatches (fetch : Fetch) (page : String) (pages : List String) :
    List Match → String → StepResult
  | [], content => StepResult.cont content
  | m :: rest, content =>
    match processMatch fetch page pages content m with
    | StepResult.cont c => processMatches fetch page pages rest c
    | StepResult.quota l code => StepResult.quota l code

/-- Outcome of one page: nothing to change, an edit submission carrying the
new markup, or the quota stop. -/
inductive PageResult where
  | noEdit
  | edit (newContent : String)
  | quotaStop (persisted : List String) (code : Nat)
deriving DecidableEq

/-- Model of `processPage`: extract the matches of the document structure
`doc` that the regex scans see in the raw markup `content`; with no matches
return at once; otherwise fold the matches through the working document and
submit an edit only when the result differs from the original. -/
def processPage (fetch : Fetch) (page : String) (pages : List String)
    (doc : Doc) (content : String) : PageResult :=
  let ms := (extractContent doc).1
  if ms = [] then PageResult.noEdit
  else
    match processMatches fetch page pages ms content with
    | StepResult.cont newContent =>
      if newContent = content then PageResult.noEdit else PageResult.edit newContent
    | StepResult.quota l code => PageResult.quotaStop l code

/-- Outcome of the page loop of `run`. -/
inductive RunOutcome where
  | finished
  | stopped (persisted : List String) (code : Nat)
deriving DecidableEq

/-- Model of the page loop of `run`: shift the head page, process it with the
remaining queue in scope, and stop the whole run when a page reports the
quota stop.  `getPage` models the page fetch. -/
def runPages (fetch : Fetch) (getPage : String → Doc × String) : List String → RunOutcome
  | [] => RunOutcome.finished
  | p :: rest =>
    match processPage fetch p rest (getPage p).1 (getPage p).2 with
    | PageResult.quotaStop l code => RunOutcome.stopped l code
    | PageResult.noEdit => runPages fetch getPage rest
    | PageResult.edit _ => runPages fetch getPage rest

/-- C8: a non-quota adapter failure leaves the working document of its match
untouched and processing continues with the next match; a single adapter
failure never aborts the page. -/
theorem provider_error_continues (fetch : Fetch) (e : JsError) (m : Match)
    (page : String) (pages : List String) (content : String) (rest : List Match)
    (h1 : fetch m = FetchResult.err e) (h2 : isQuotaError e = false) :
    processMatch fetch page pages content m = StepResult.cont content
    ∧ processMatches fetch page pages (m :: rest) content
        = processMatches fetch page pages rest content := by
  have hm : processMatch fetch page pages content m = StepResult.cont content := by
    simp [processMatch, h1, h2]
  exact ⟨hm, by simp [processMatches, hm]⟩

/-- Witness for C8 with a not-found adapter error. -/
theorem provider_error_continues_witness :
    processMatch (fun _ => FetchResult.err ⟨some "[youtube] Video with ID x not found", none⟩)
      "Page" [] "body" ⟨"x", "yt", JVal.num 5⟩ = StepResult.cont "body" :=
  (provider_error_continues
    (fun _ => FetchResult.err ⟨some "[youtube] Video with ID x not found", none⟩)
    ⟨some "[youtube] Video with ID x not found", none⟩ ⟨"x", "yt", JVal.num 5⟩
    "Page" [] "body" [] rfl (by decide)).1

/-- C6: a quota-indicating adapter failure prepends the current page to the
remaining queue, persists that list, and stops the whole run at once with
exit status zero: the step result carries the queue with the current page
first and the remaining pages in original order, no further match of the page
is processed, and the page loop stops without touching any later page. -/
theorem quota_exit_requeue (fetch : Fetch) (e : JsError) (m : Match) (p : String)
    (h1 : fetch m = FetchResult.err e) (h2 : isQuotaError e = true) :
    (∀ (pages : List String) (content : String) (rest : List Match),
      processMatches fetch p pages (m :: rest) content = StepResult.quota (p :: pages) 0)
    ∧ (∀ (getPage : String → Doc × String) (rest : List String) (ms2 : List Match),
      (extractContent (getPage p).1).1 = m :: ms2 →
      runPages fetch getPage (p :: rest) = RunOutcome.stopped (p :: rest) 0) := by
  have hq : ∀ (pages : List String) (content : String),
      processMatch fetch p pages content m = StepResult.quota (p :: pages) 0 := by
    intro pages content
    simp [processMatch, h1, h2]
  constructor
  · intro pages content rest
    simp [processMatches, hq]
  · intro getPage rest ms2 hms
    have hpp : processPage fetch p rest (getPage p).1 (getPage p).2
        = PageResult.quotaStop (p :: rest) 0 := by
      simp [processPage, hms, processMatches, hq]
    simp [runPages, hpp]

/-- Witness for C6: a daily-limit error on the only match of page five stops
the run with pages five to seven persisted in order. -/
theorem quota_exit_requeue_witness :
    processMatches (fun _ => FetchResult.err ⟨some "Daily Limit Exceeded", none⟩)
      "Page5" ["Page6", "Page7"] [⟨"abc", "yt", JVal.num 999⟩] "body"
      = StepResult.quota ("Page5" :: ["Page6", "Page7"]) 0 :=
  (quota_exit_requeue (fun _ => FetchResult.err ⟨some "Daily Limit Exceeded", none⟩)
    ⟨some "Daily Limit Exceeded", none⟩ ⟨"abc", "yt", JVal.num 999⟩ "Page5"
    rfl (by decide)).1 ["Page6", "Page7"] "body" []

theorem processMatches_all_same (fetch : Fetch) (page : String) (pages : List String) :
    ∀ (ms : List Match) (ct : String),
      (∀ m ∈ ms, ∃ c, fetch m = FetchResult.ok c ∧ roundV m.views = roundV c) →
      processMatches fetch page pages ms ct = StepResult.cont ct := by
  intro ms
  induction ms with
  | nil => intro ct _; rfl
  | cons m rest ih =>
    intro ct h
    obtain ⟨c, hc, heq⟩ := h m (List.mem_cons_self m rest)
    have hm : processMatch fetch page pages ct m = StepResult.cont ct := by
      simp [processMatch, hc, heq]
    simp only [processMatches, hm]
    exact ih ct (fun m' hm' => h m' (List.mem_cons_of_mem _ hm'))

theorem processMatches_changed (fetch : Fetch) (page : String) (pages : List String) :
    ∀ (ms : List Match) (ct ct' : String),
      processMatches fetch page pages ms ct = StepResult.cont ct' → ct' ≠ ct →
      ∃ m ∈ ms, ∃ c, fetch m = FetchResult.ok c ∧ roundV m.views ≠ roundV c := by
  intro ms
  induction ms with
  | nil =>
    intro ct ct' h hne
    simp only [processMatches, StepResult.cont.injEq] at h
    exact absurd h.symm hne
  | cons m rest ih =>
    intro ct ct' h hne
    cases hf : fetch m with
    | ok c =>
      by_cases hbe : roundV m.views = roundV c
      · have hm : processMatch fetch page pages ct m = StepResult.cont ct := by
          simp [processMatch, hf, hbe]
        simp only [processMatches, hm] at h
        obtain ⟨m', hm', hc⟩ := ih ct ct' h hne
        exact ⟨m', List.mem_cons_of_mem _ hm', hc⟩
      · exact ⟨m, List.mem_cons_self m rest, c, hf, hbe⟩
    | err e =>
      by_cases hqe : isQuotaError e = true
      · have hm : processMatch fetch page pages ct m
            = StepResult.quota (page :: pages) 0 := by
          simp [processMatch, hf, hqe]
        simp only [processMatches, hm] at h
        simp at h
      · have hqf : isQuotaError e = false := by
          revert hqe
          cases isQuotaError e <;> simp
        have hm : processMatch fetch page pages ct m = StepResult.cont ct := by
          simp [processMatch, hf, hqf]
        simp only [processMatches, hm] at h
        obtain ⟨m', hm', hc⟩ := ih ct ct' h hne
        exact ⟨m', List.mem_cons_of_mem _ hm', hc⟩

/-- C4: when the adapter result of every extracted match rounds into the same
display bucket as the recorded count, the fold over the matches returns the
working document byte for byte unchanged and the page ends with no edit call;
conversely an edit is attempted only when some match's rounded old and new
counts differ as strings. -/
theorem same_bucket_no_edit (fetch : Fetch) (page : String) (pages : List String)
    (doc : Doc) (content : String) :
    ((∀ m ∈ (extractContent doc).1, ∃ c, fetch m = FetchResult.ok c
        ∧ roundV m.views = roundV c) →
      processMatches fetch page pages (extractContent doc).1 content = StepResult.cont content
      ∧ processPage fetch page pages doc content = PageResult.noEdit)
    ∧ (∀ nc, processPage fetch page pages doc content = PageResult.edit nc →
      ∃ m ∈ (extractContent doc).1, ∃ c, fetch m = FetchResult.ok c
        ∧ roundV m.views ≠ roundV c) := by
  constructor
  · intro h
    have h1 := processMatches_all_same fetch page pages (extractContent doc).1 content h
    refine ⟨h1, ?_⟩
    by_cases hms : (extractContent doc).1 = []
    · simp [processPage, hms]
    · simp [processPage, hms, h1]
  · intro nc hedit
    simp only [processPage] at hedit
    by_cases hms : (extractContent doc).1 = []
    · simp [hms] at hedit
    · rw [if_neg hms] at hedit
      cases hpm : processMatches fetch page pages (extractContent doc).1 content with
      | cont c' =>
        rw [hpm] at hedit
        by_cases hcc : c' = content
        · simp [hcc] at hedit
        · exact processMatches_changed fetch page pages (extractContent doc).1
            content c' hpm hcc
      | quota l code =>
        rw [hpm] at hedit
        simp at hedit

/-- Witness for C4 on a page whose single match moves within its bucket. -/
theorem same_bucket_no_edit_witness :
    processMatches (fun _ => FetchResult.ok (JVal.num 1260)) "Page" []
        (extractContent ⟨true, true, [Tmpl.view "yt" "1,234", Tmpl.link "yt" "abc" none]⟩).1
        "body"
      = StepResult.cont "body"
    ∧ processPage (fun _ => FetchResult.ok (JVal.num 1260)) "Page" []
        ⟨true, true, [Tmpl.view "yt" "1,234", Tmpl.link "yt" "abc" none]⟩ "body"
      = PageResult.noEdit :=
  (same_bucket_no_edit (fun _ => FetchResult.ok (JVal.num 1260)) "Page" []
    ⟨true, true, [Tmpl.view "yt" "1,234", Tmpl.link "yt" "abc" none]⟩ "body").1 (by
      intro m hm
      have hex : (extractContent
          ⟨true, true, [Tmpl.view "yt" "1,234", Tmpl.link "yt" "abc" none]⟩).1
          = [⟨"abc", "yt", JVal.num 1234⟩] := by decide
      rw [hex] at hm
      simp only [List.mem_singleton] at hm
      subst hm
      exact ⟨JVal.num 1260, rfl, by decide⟩)

/-- C10: `commafy` renders both non-numbers as the literal placeholder, so a
match whose recorded views is `NaN` makes the substitution step search for
the view template spelled with the placeholder text; when that literal text
does not occur in the document, the update is silently a no-op. -/
theorem nan_commafy_placeholder_noop (fetch : Fetch) (page : String)
    (pages : List String) (content : String) (m : Match) (c : Nat)
    (hv : m.views = JVal.nan) (hf : fetch m = FetchResult.ok (JVal.num c)) :
    commafy m.views = "und,efi,ned"
    ∧ processMatch fetch page pages content m
        = StepResult.cont (jsReplace content (vTemplate m.provider "und,efi,ned")
            (vTemplate m.provider (commafy (JVal.num c))))
    ∧ (findSplit content.data (vTemplate m.provider "und,efi,ned").data = none →
        processMatch fetch page pages content m = StepResult.cont content) := by
  have hcom : commafy m.views = "und,efi,ned" := by rw [hv]; rfl
  have hna : roundV JVal.nan = "Na0" := by decide
  have hne : roundV m.views ≠ roundV (JVal.num c) := by
    rw [hv]
    intro hcon
    exact roundVN_ne_Na0 c (show roundVN c = "Na0" from hcon.symm.trans hna)
  have hmr : processMatch fetch page pages content m
      = StepResult.cont (jsReplace content (vTemplate m.provider (commafy m.views))
          (vTemplate m.provider (commafy (JVal.num c)))) := by
    simp [processMatch, hf, hne]
  rw [hcom] at hmr
  refine ⟨hcom, hmr, ?_⟩
  intro hnf
  rw [hmr]
  have hrep : jsReplace content (vTemplate m.provider "und,efi,ned")
      (vTemplate m.provider (commafy (JVal.num c))) = content := by
    simp [jsReplace, hnf]
  rw [hrep]

/-- Witness for C10: the placeholder template occurs nowhere in a plain body,
so the step returns the body unchanged. -/
theorem nan_commafy_placeholder_noop_witness :
    processMatch (fun _ => FetchResult.ok (JVal.num 1450)) "Page" [] "plain body"
      ⟨"abc", "yt", JVal.nan⟩ = StepResult.cont "plain body" :=
  (nan_commafy_placeholder_noop (fun _ => FetchResult.ok (JVal.num 1450)) "Page" []
    "plain body" ⟨"abc", "yt", JVal.nan⟩ 1450 rfl rfl).2.2 (by decide)

/-- C5 counterexample: a view value whose conversion fails rounds to the
string Na0, not to the sentinel named by the claim. -/
theorem nan_not_unsupported_counterexample :
    jsNumber (stripViewValue ("12abc".data)) = JVal.nan
    ∧ roundV (jsNumber (stripViewValue ("12abc".data))) = "Na0"
    ∧ roundV (jsNumber (stripViewValue ("12abc".data))) ≠ "unsupported" := by decide

/-- C5 (amended): a failed conversion of a view value yields `NaN`, which the
total scan absorbs without failing; the rounding policy renders it as the
string Na0 — not the "unsupported" sentinel — and that string differs from
the rounded rendering of every actual count, so the comparison reads as
changed and the update attempt is not skipped. -/
theorem nan_rounds_changed (raw : String)
    (h : jsNumber (stripViewValue raw.data) = JVal.nan) :
    roundV (jsNumber (stripViewValue raw.data)) = "Na0"
    ∧ (∀ c : Nat, roundV (jsNumber (stripViewValue raw.data)) ≠ roundVN c)
    ∧ (∀ (fetch : Fetch) (page : String) (pages : List String) (content : String)
        (m : Match) (c : Nat), m.views = jsNumber (stripViewValue raw.data) →
        fetch m = FetchResult.ok (JVal.num c) →
        processMatch fetch page pages content m
          = StepResult.cont (jsReplace content (vTemplate m.provider (commafy m.views))
              (vTemplate m.provider (commafy (JVal.num c))))) := by
  rw [h]
  have hna : roundV JVal.nan = "Na0" := by decide
  refine ⟨hna, ?_, ?_⟩
  · intro c hcon
    exact roundVN_ne_Na0 c (show roundVN c = "Na0" from hcon.symm.trans hna)
  · intro fetch page pages content m c hm hf
    have hne : roundV m.views ≠ roundV (JVal.num c) := by
      rw [hm]
      intro hcon
      exact roundVN_ne_Na0 c (show roundVN c = "Na0" from hcon.symm.trans hna)
    simp [processMatch, hf, hne]

/-- Witness for the amended C5 at a concrete malformed value. -/
theorem nan_rounds_changed_witness :
    roundV (jsNumber (stripViewValue ("12abc".data))) = "Na0"
    ∧ roundV (jsNumber (stripViewValue ("12abc".data))) ≠ roundVN 999 :=
  ⟨(nan_rounds_changed "12abc" (by decide)).1,
   (nan_rounds_changed "12abc" (by decide)).2.1 999⟩

end VWVCU
